import Mathlib

/-!
Verification of the BOSS ensemble classifier
(`sktime/contrib/dictionary_based/boss_ensemble.py`).

The file embeds the ensemble-management logic of `BOSSEnsemble.fit`
(grid-search and randomised modes), the retention predicate
`include_in_ensemble`, the `worst_of_best` scan, the window-length grid
derivation, and the nearest-neighbour loops of `BOSSIndividual.predict` /
`BOSSIndividual.train_predict`.

Modelling conventions:
* Accuracies and distances are exact rationals (`ℚ`).  In the source they
  are Python floats, but every accuracy is `correct / num_insts` and every
  comparison in the modelled code is order-only, so `ℚ` is faithful on the
  values that actually occur.
* The SFA transform and `boss_distance` are external collaborators
  (`sktime.transformers.SFA`, `sktime.distances.dictionary_distances`), not
  part of the specified core of this repository.  The grid-search loop is
  therefore parameterised by the list of per-grid-cell winning accuracies
  (one per `(normalise, window)` cell, each of the form
  `correct / num_insts`, hence nonnegative), and the nearest-neighbour
  loops are parameterised by the true bag-distance function `d` and by the
  value `report n c` actually returned by `boss_distance` when called on
  training bag `n` with cutoff `c`.
-/

namespace Boss

/-- Function `include_in_ensemble` (boss_ensemble.py lines 230-236):
`acc >= max_acc * threshold` and then either `size < max_ensemble_size`
or `acc > min_max_acc`. -/
def include_in_ensemble (threshold : ℚ) (maxEnsembleSize : ℕ)
    (acc maxAcc minMaxAcc : ℚ) (size : ℕ) : Bool :=
  if maxAcc * threshold ≤ acc then
    if maxEnsembleSize ≤ size then decide (minMaxAcc < acc) else true
  else false

/-- The scan inside `worst_of_best` (lines 242-245): running minimum
starting from the sentinel `-1`, position recorded on strict decrease.
`c` is the index of the head of the remaining list. -/
def wobAux : List ℚ → ℕ → ℚ → ℕ → ℚ × ℕ
  | [], _, minAcc, minIdx => (minAcc, minIdx)
  | a :: rest, c, minAcc, minIdx =>
      if a < minAcc then wobAux rest (c + 1) a c
      else wobAux rest (c + 1) minAcc minIdx

/-- Function `worst_of_best` (lines 238-247), acting on the cached accuracies
of the retained members. -/
def worst_of_best (accs : List ℚ) : ℚ × ℕ := wobAux accs 0 (-1) 0

/-- The eviction loop of `fit` (lines 196-198):
`for c, classifier in enumerate(self.classifiers): if classifier.accuracy <
max_acc * self.threshold: self.classifiers.remove(classifier)`.
`list.remove` deletes the element at the current position of the iterator (the
members are distinct objects), after which the iterator advances past the
element that slid into that position — so the element directly after every
removed one is retained without being examined. -/
def evictScan (bound : ℚ) : List ℚ → List ℚ
  | [] => []
  | [a] => if a < bound then [] else [a]
  | a :: b :: rest =>
      if a < bound then b :: evictScan bound rest
      else a :: evictScan bound (b :: rest)

/-- The mutable state of the grid-search branch of `fit`: the retained
members (identified by their cached accuracies, in list order) and the
running `max_acc` / `min_max_acc` variables (lines 159-160, both start
at `-1`). -/
structure FitState where
  classifiers : List ℚ
  maxAcc : ℚ
  minMaxAcc : ℚ
deriving DecidableEq

/-- Lines 200-204: recompute `min_max_acc, min_acc_ind = worst_of_best()`;
if the retained count exceeds `max_ensemble_size`, `del
self.classifiers[min_acc_ind]` and recompute `worst_of_best` once more. -/
def fitCap (maxEnsembleSize : ℕ) (cls : List ℚ) (maxAcc : ℚ) : FitState :=
  if maxEnsembleSize < cls.length then
    ⟨cls.eraseIdx (worst_of_best cls).2, maxAcc,
      (worst_of_best (cls.eraseIdx (worst_of_best cls).2)).1⟩
  else ⟨cls, maxAcc, (worst_of_best cls).1⟩

/-- Lines 191-204, after a positive retention decision: append the
candidate; if its accuracy strictly improves `max_acc`, update `max_acc`
and run the eviction scan at the new `max_acc * threshold` bound; then
apply the size cap. -/
def fitRetain (threshold : ℚ) (maxEnsembleSize : ℕ) (cls : List ℚ)
    (maxAcc acc : ℚ) : FitState :=
  fitCap maxEnsembleSize
    (if maxAcc < acc then evictScan (acc * threshold) (cls ++ [acc])
     else cls ++ [acc])
    (if maxAcc < acc then acc else maxAcc)

/-- One iteration of the grid-search loop body (lines 187-204) for a grid
cell whose winning candidate has leave-one-out accuracy `acc`: decide
retention with `include_in_ensemble` on the pre-append size, and update
the state on retention. -/
def fitStep (threshold : ℚ) (maxEnsembleSize : ℕ)
    (st : FitState) (acc : ℚ) : FitState :=
  if include_in_ensemble threshold maxEnsembleSize acc
      st.maxAcc st.minMaxAcc st.classifiers.length then
    fitRetain threshold maxEnsembleSize st.classifiers st.maxAcc acc
  else st

/-- The grid-search branch of `fit` (lines 158-204), parameterised by the
sequence of per-grid-cell winning accuracies (`best_acc_for_win_size`
values), in cell-processing order. -/
def fitGrid (threshold : ℚ) (maxEnsembleSize : ℕ) (accs : List ℚ) : FitState :=
  accs.foldl (fitStep threshold maxEnsembleSize) ⟨[], -1, -1⟩

/-- The randomised branch of `fit` (lines 144-157), tracking each built
word-length parameter of each member.  `samples k` is the index drawn by
`random.randint(0, len(self.word_lengths) - 1)` at iteration `k` (always
in bounds in the source).  Line 148 binds `word_len` to the list VALUE
`word_lengths[samples k]`; line 154 then constructs the member with
`self.word_lengths[word_len]`, indexing the list again with that value —
`none` models the `IndexError` raised when it is out of bounds.  The
`while len < ensemble_size` loop appends exactly one member per
iteration, so it performs exactly `ensembleSize` iterations. -/
def fitRandomised (wordLengths : List ℕ) (ensembleSize : ℕ)
    (samples : ℕ → ℕ) : Option (List ℕ) :=
  (List.range ensembleSize).foldl
    (fun acc k =>
      acc.bind fun cls =>
        match (wordLengths.get? (samples k)).bind
            (fun wl => wordLengths.get? wl) with
        | some w => some (cls ++ [w])
        | none => none)
    (some [])

/-- The Python builtin `int()` applied to an exact quotient: truncation toward 0. -/
def pyTrunc (q : ℚ) : ℤ := if 0 ≤ q then ⌊q⌋ else ⌈q⌉

/-- Step `win_inc` (lines 139-142): `int((series_length - min_window) /
(series_length / 4))`, clamped below by 1.  Both divisions are Python
float divisions of (differences of) machine integers; they are modelled
as exact rational arithmetic. -/
def winInc (seriesLength minWindow : ℕ) : ℤ :=
  if pyTrunc (((seriesLength : ℚ) - (minWindow : ℚ)) / ((seriesLength : ℚ) / 4)) < 1
  then 1
  else pyTrunc (((seriesLength : ℚ) - (minWindow : ℚ)) / ((seriesLength : ℚ) / 4))

/-- Python `range(start, stop, step)` for a positive step. -/
def pyRange (start stop step : ℕ) : List ℕ :=
  (List.range ((stop - start + step - 1) / step)).map (fun k => start + k * step)

/-- The window lengths enumerated by the grid search (line 163):
`range(self.min_window, self.series_length + 1, win_inc)`. -/
def windowGrid (seriesLength minWindow : ℕ) : List ℕ :=
  pyRange minWindow (seriesLength + 1) (winInc seriesLength minWindow).toNat

/-- The `X` argument of `fit` as far as its validation branch is
concerned (lines 124-129): a 2-d numpy array, a DataFrame whose cells
are Series, or a DataFrame holding anything else (which raises
`TypeError`). -/
inductive InputX where
  | array (numInsts seriesLength : ℕ)
  | frameOfSeries (numInsts seriesLength : ℕ)
  | badFrame
deriving DecidableEq

/-- The input coercion of `fit` (lines 124-131): the only exception in
the whole of `fit` is the `TypeError` for a malformed DataFrame. -/
def coerceX : InputX → Except String (ℕ × ℕ)
  | .array n m => .ok (n, m)
  | .frameOfSeries n m => .ok (n, m)
  | .badFrame => .error "Input should either be a 2d numpy array, or a pandas dataframe containing Series objects"

/-- Function `fit` in grid-search mode, end to end (lines 124-206): coerce `X`,
record `num_classes = np.unique(y).shape[0]` (lines 131-135 — there is
no check on the number of distinct classes, and no other exception), then
run the grid-search loop. -/
def fitModel (threshold : ℚ) (maxEnsembleSize : ℕ) (X : InputX)
    (y : List ℤ) (accs : List ℚ) : Except String (ℕ × FitState) :=
  (coerceX X).map fun _ => (y.dedup.length, fitGrid threshold maxEnsembleSize accs)

/-- The contract of `boss_distance(test_bag, bag, cutoff)` assumed by the
spec: the true distance is reported exactly when it is below the cutoff,
and otherwise some value that is at least the cutoff is reported.
`d n` is the true distance from the query bag to training bag `n`,
`report n c` the value returned with cutoff `c`. -/
def DistContract (d : ℕ → ℚ) (report : ℕ → ℚ → ℚ) : Prop :=
  ∀ n c, (d n < c → report n c = d n) ∧ (c ≤ d n → c ≤ report n c)

/-- The body of the 1-NN scans (lines 326-331 and 342-350): call the
distance with the running best as cutoff, and on strict improvement
record the new best distance and the training label at this index. -/
def nnStep (report : ℕ → ℚ → ℚ) (labels : List ℤ)
    (st : ℚ × ℤ) (n : ℕ) : ℚ × ℤ :=
  if report n st.1 < st.1 then (report n st.1, labels.getD n (-1)) else st

/-- The 1-NN loop of `BOSSIndividual.predict` for one test instance
(lines 322-333): `bestDist` starts at `sys.float_info.max` (modelled by
the parameter `M`), `nn` at `-1`. -/
def nnScan (report : ℕ → ℚ → ℚ) (labels : List ℤ) (M : ℚ) : ℚ × ℤ :=
  (List.range labels.length).foldl (nnStep report labels) (M, -1)

/-- The loop of `BOSSIndividual.train_predict` (lines 337-352): identical
to the `predict` loop except that training index `i` is skipped. -/
def trainPredictScan (report : ℕ → ℚ → ℚ) (labels : List ℤ)
    (M : ℚ) (i : ℕ) : ℚ × ℤ :=
  (List.range labels.length).foldl
    (fun st n => if n = i then st else nnStep report labels st n) (M, -1)

/-- First index attaining the minimum of `d` on `{0, ..., N-1}` (ties
never displace an earlier index because the comparison is strict). -/
def argminFirst (d : ℕ → ℚ) (N : ℕ) : ℕ :=
  (List.range N).foldl (fun best n => if d n < d best then n else best) 0

/-! ### Helper lemmas -/

/-- If no element of the list is strictly below the running minimum, the
`worst_of_best` scan never updates. -/
lemma wobAux_no_update (l : List ℚ) :
    ∀ (c : ℕ) (mi : ℚ) (midx : ℕ), (∀ a ∈ l, ¬ a < mi) →
      wobAux l c mi midx = (mi, midx) := by
  induction l with
  | nil => intro c mi midx _; rfl
  | cons a rest ih =>
      intro c mi midx h
      have ha : ¬ a < mi := h a (by simp)
      rw [wobAux, if_neg ha]
      exact ih _ _ _ (fun b hb => h b (by simp [hb]))

/-- Function `worst_of_best` on a list of nonnegative accuracies degenerates to
the sentinel pair `(-1, 0)`. -/
lemma wob_sentinel (accs : List ℚ) (h : ∀ a ∈ accs, 0 ≤ a) :
    worst_of_best accs = (-1, 0) := by
  refine wobAux_no_update accs 0 (-1) 0 (fun a ha hlt => ?_)
  have := h a ha
  linarith

/-- The eviction scan only keeps elements of its input and never makes
the list longer. -/
lemma evictScan_sub (bound : ℚ) (l : List ℚ) :
    (evictScan bound l).length ≤ l.length ∧
      ∀ a ∈ evictScan bound l, a ∈ l := by
  induction l using evictScan.induct bound with
  | case1 => simp [evictScan]
  | case2 a hb => rw [evictScan, if_pos hb]; simp
  | case3 a hb => rw [evictScan, if_neg hb]; simp
  | case4 a b rest hb ih =>
      rw [evictScan, if_pos hb]
      obtain ⟨h1, h2⟩ := ih
      refine ⟨by simp; omega, fun x hx => ?_⟩
      simp at hx ⊢
      rcases hx with hx | hx
      · tauto
      · exact Or.inr (Or.inr (h2 x hx))
  | case5 a b rest hb ih =>
      rw [evictScan, if_neg hb]
      obtain ⟨h1, h2⟩ := ih
      refine ⟨by simp at h1 ⊢; omega, fun x hx => ?_⟩
      simp at hx ⊢
      rcases hx with hx | hx
      · exact Or.inl hx
      · have hm := h2 x hx
        simp at hm
        tauto

/-- Invariant carried through the grid-search loop when all candidate
accuracies are nonnegative: retained accuracies are nonnegative,
`min_max_acc` is stuck at the `-1` sentinel, the retained count respects
`max_ensemble_size`, and the running `max_acc` dominates every retained
accuracy. -/
def FitInv (maxSize : ℕ) (st : FitState) : Prop :=
  (∀ a ∈ st.classifiers, 0 ≤ a) ∧ st.minMaxAcc = -1 ∧
    st.classifiers.length ≤ maxSize ∧ ∀ a ∈ st.classifiers, a ≤ st.maxAcc

lemma fitCap_inv (maxSize : ℕ) (cls : List ℚ) (maxAcc : ℚ)
    (hpos : ∀ a ∈ cls, 0 ≤ a) (hlen : cls.length ≤ maxSize + 1)
    (hmax : ∀ a ∈ cls, a ≤ maxAcc) :
    FitInv maxSize (fitCap maxSize cls maxAcc) := by
  rw [fitCap]
  have hwob : worst_of_best cls = (-1, 0) := wob_sentinel cls hpos
  by_cases hover : maxSize < cls.length
  · rw [if_pos hover]
    have hsub : ∀ a ∈ cls.eraseIdx (worst_of_best cls).2, a ∈ cls :=
      fun a ha => List.eraseIdx_subset _ _ ha
    refine ⟨fun a ha => hpos a (hsub a ha),
      congrArg Prod.fst (wob_sentinel _ (fun a ha => hpos a (hsub a ha))),
      ?_, fun a ha => hmax a (hsub a ha)⟩
    have hidx : (worst_of_best cls).2 < cls.length := by
      rw [hwob]; omega
    have := List.length_eraseIdx_of_lt hidx
    simp only [this]
    omega
  · rw [if_neg hover]
    exact ⟨hpos, congrArg Prod.fst hwob, le_of_not_lt hover, hmax⟩

lemma fitRetain_inv (t : ℚ) (maxSize : ℕ) (cls : List ℚ) (maxAcc acc : ℚ)
    (hacc : 0 ≤ acc) (hpos : ∀ a ∈ cls, 0 ≤ a) (hlen : cls.length ≤ maxSize)
    (hmax : ∀ a ∈ cls, a ≤ maxAcc) :
    FitInv maxSize (fitRetain t maxSize cls maxAcc acc) := by
  rw [fitRetain]
  have hpos1 : ∀ a ∈ cls ++ [acc], 0 ≤ a := by
    intro a ha
    rcases List.mem_append.mp ha with ha | ha
    · exact hpos a ha
    · simp at ha; subst ha; exact hacc
  by_cases hc : maxAcc < acc
  · rw [if_pos hc, if_pos hc]
    have hsub := (evictScan_sub (acc * t) (cls ++ [acc])).2
    have hlen1 := (evictScan_sub (acc * t) (cls ++ [acc])).1
    refine fitCap_inv maxSize _ acc (fun a ha => hpos1 a (hsub a ha)) ?_ ?_
    · simp at hlen1; omega
    · intro a ha
      rcases List.mem_append.mp (hsub a ha) with h | h
      · exact le_of_lt (lt_of_le_of_lt (hmax a h) hc)
      · simp at h; subst h; exact le_rfl
  · rw [if_neg hc, if_neg hc]
    refine fitCap_inv maxSize _ maxAcc hpos1 (by simp; omega) ?_
    intro a ha
    rcases List.mem_append.mp ha with h | h
    · exact hmax a h
    · simp at h; subst h; exact le_of_not_lt hc

lemma fitStep_inv (t : ℚ) (maxSize : ℕ) (st : FitState) (acc : ℚ)
    (hacc : 0 ≤ acc) (h : FitInv maxSize st) :
    FitInv maxSize (fitStep t maxSize st acc) := by
  obtain ⟨hpos, hmma, hlen, hmax⟩ := h
  rw [fitStep]
  by_cases hinc : include_in_ensemble t maxSize acc st.maxAcc st.minMaxAcc
      st.classifiers.length = true
  · rw [if_pos hinc]
    exact fitRetain_inv t maxSize st.classifiers st.maxAcc acc hacc hpos hlen hmax
  · rw [if_neg hinc]
    exact ⟨hpos, hmma, hlen, hmax⟩

lemma fitGrid_inv (t : ℚ) (maxSize : ℕ) (accs : List ℚ)
    (h : ∀ a ∈ accs, 0 ≤ a) : FitInv maxSize (fitGrid t maxSize accs) := by
  have init : FitInv maxSize ⟨[], -1, -1⟩ := by
    refine ⟨?_, rfl, ?_, ?_⟩ <;> simp
  rw [fitGrid]
  revert init
  generalize (⟨[], -1, -1⟩ : FitState) = st
  induction accs generalizing st with
  | nil => intro hst; exact hst
  | cons a rest ih =>
      intro hst
      rw [List.foldl_cons]
      exact ih (fun b hb => h b (by simp [hb])) (fitStep t maxSize st a)
        (fitStep_inv t maxSize st a (h a (by simp)) hst)

/-- Unfolding step for `argminFirst`. -/
lemma argminFirst_succ (d : ℕ → ℚ) (N : ℕ) :
    argminFirst d (N + 1) =
      if d N < d (argminFirst d N) then N else argminFirst d N := by
  simp [argminFirst, List.range_succ]

lemma argminFirst_zero (d : ℕ → ℚ) : argminFirst d 0 = 0 := rfl

lemma argminFirst_lt (d : ℕ → ℚ) (N : ℕ) (h : 0 < N) :
    argminFirst d N < N := by
  induction N with
  | zero => omega
  | succ n ih =>
      rw [argminFirst_succ]
      split_ifs
      · omega
      · rcases Nat.eq_zero_or_pos n with h0 | hpos
        · subst h0; simp [argminFirst_zero]
        · have := ih hpos; omega

lemma argminFirst_min (d : ℕ → ℚ) (N : ℕ) :
    ∀ m < N, d (argminFirst d N) ≤ d m := by
  induction N with
  | zero => intro m hm; omega
  | succ n ih =>
      intro m hm
      rw [argminFirst_succ]
      split_ifs with h
      · rcases Nat.lt_succ_iff_lt_or_eq.mp hm with hm | hm
        · exact le_of_lt (lt_of_lt_of_le h (ih m hm))
        · subst hm; exact le_rfl
      · rcases Nat.lt_succ_iff_lt_or_eq.mp hm with hm | hm
        · exact ih m hm
        · subst hm; exact le_of_not_lt h

lemma argminFirst_strict (d : ℕ → ℚ) (N : ℕ) :
    ∀ m < argminFirst d N, d (argminFirst d N) < d m := by
  induction N with
  | zero => rw [argminFirst_zero]; intro m hm; omega
  | succ n ih =>
      rw [argminFirst_succ]
      split_ifs with h
      · intro m hm
        exact lt_of_lt_of_le h (argminFirst_min d n m hm)
      · exact ih

/-- The nearest-neighbour loop computes the first-minimum of the true
distances, whatever value the distance function reports above its
cutoff. -/
lemma nnScan_loop (labels : List ℤ) (d : ℕ → ℚ) (report : ℕ → ℚ → ℚ)
    (M : ℚ) (hc : DistContract d report) :
    ∀ N, 0 < N → (∀ n < N, d n < M) →
      (List.range N).foldl (nnStep report labels) (M, -1) =
        (d (argminFirst d N), labels.getD (argminFirst d N) (-1)) := by
  intro N
  induction N with
  | zero => omega
  | succ n ih =>
      intro _ hM
      rw [List.range_succ, List.foldl_append, List.foldl_cons, List.foldl_nil]
      rcases Nat.eq_zero_or_pos n with h0 | hpos
      · subst h0
        have hd0 : d 0 < M := hM 0 (by omega)
        have hrep : report 0 M = d 0 := (hc 0 M).1 hd0
        simp only [List.range_zero, List.foldl_nil, nnStep]
        rw [argminFirst_succ, argminFirst_zero, if_neg (lt_irrefl (d 0))]
        simp only [hrep]
        rw [if_pos hd0]
      · rw [ih hpos (fun k hk => hM k (by omega))]
        rw [argminFirst_succ]
        by_cases h : d n < d (argminFirst d n)
        · rw [if_pos h, nnStep]
          have hrep : report n (d (argminFirst d n)) = d n :=
            (hc n (d (argminFirst d n))).1 h
          simp only [hrep]
          rw [if_pos h]
        · rw [if_neg h, nnStep]
          have hrep : d (argminFirst d n) ≤ report n (d (argminFirst d n)) :=
            (hc n (d (argminFirst d n))).2 (le_of_not_lt h)
          rw [if_neg (not_lt.mpr hrep)]

/-- The `train_predict` loop either never updated (and then every index
it visited was the excluded one) or holds the label of some visited,
non-excluded index. -/
lemma trainPredict_loop (labels : List ℤ) (d : ℕ → ℚ) (report : ℕ → ℚ → ℚ)
    (M : ℚ) (i : ℕ) (hc : DistContract d report)
    (hM : ∀ n < labels.length, d n < M) :
    ∀ N, N ≤ labels.length →
      ((List.range N).foldl
          (fun st n => if n = i then st else nnStep report labels st n)
          (M, -1) = (M, -1) ∧ ∀ j < N, j = i)
      ∨ (∃ n, n < N ∧ n ≠ i ∧
          ((List.range N).foldl
            (fun st n => if n = i then st else nnStep report labels st n)
            (M, -1)).2 = labels.getD n (-1)) := by
  intro N
  induction N with
  | zero =>
      intro _
      left
      exact ⟨rfl, by omega⟩
  | succ n ih =>
      intro hN
      rw [List.range_succ, List.foldl_append, List.foldl_cons, List.foldl_nil]
      rcases ih (by omega) with ⟨heq, hall⟩ | ⟨m, hm, hmi, hval⟩
      · by_cases hni : n = i
        · left
          rw [if_pos hni, heq]
          exact ⟨rfl, fun j hj => by
            rcases Nat.lt_succ_iff_lt_or_eq.mp hj with hj | hj
            · exact hall j hj
            · omega⟩
        · right
          rw [if_neg hni, heq]
          have hdn : d n < M := hM n (by omega)
          have hrep : report n M = d n := (hc n M).1 hdn
          refine ⟨n, by omega, hni, ?_⟩
          rw [nnStep]
          simp only [hrep]
          rw [if_pos hdn]
      · by_cases hni : n = i
        · right
          rw [if_pos hni]
          exact ⟨m, by omega, hmi, hval⟩
        · right
          rw [if_neg hni, nnStep]
          split_ifs
          · exact ⟨n, by omega, hni, rfl⟩
          · exact ⟨m, by omega, hmi, hval⟩

/-! ### Claim theorems -/

/-- C1: the retention invariant claimed as a post-condition of `fit` —
every retained accuracy is at least (max retained accuracy) × threshold —
fails on the code.  With threshold `0.92`, `max_ensemble_size = 250` and
per-cell winning accuracies `0.5, 0.5, 1` (e.g. 2 training instances with
1 then 1 then 2 leave-one-out hits), `fit` ends with retained accuracies
`[0.5, 1]`: when the third candidate raised `max_acc` to `1`, the
eviction loop removed the first `0.5` member and thereby skipped the
second one, which survives to the end of `fit` although
`0.5 < 1 * 0.92`. -/
theorem C1_invariant_fails_eval :
    (fitGrid (92/100) 250 [1/2, 1/2, 1]).classifiers = [1/2, 1] ∧
      (1/2 : ℚ) < 1 * (92/100) := by
  constructor
  · norm_num [fitGrid, fitStep, fitRetain, fitCap, include_in_ensemble,
      evictScan, worst_of_best, wobAux]
  · norm_num

/-- C2 counterexample: the claim says a candidate is retained iff
`acc ≥ max_acc * threshold` and (`size < max_ensemble_size` or
`acc > min_max_acc`) with `max_acc`/`min_max_acc` the best/worst accuracy
among the *currently retained* members.  With threshold `0.92` and
`max_ensemble_size = 1`: after one cell of accuracy `0.95` the retained
list is `[0.95]`, so at a second cell of accuracy `0.9` the claimed rule
rejects (the size `1` is not below the cap and `0.9 > 0.95` is false),
yet the code retains the candidate (the final ensemble is `[0.9]`,
the `0.95` member having been evicted by the cap), because the actual
`min_max_acc` is the `worst_of_best` sentinel `-1`, not the minimum
retained accuracy. -/
theorem C2_retention_rule_counterexample :
    (fitGrid (92/100) 1 [95/100]).classifiers = [95/100] ∧
      (fitGrid (92/100) 1 [95/100, 9/10]).classifiers = [9/10] ∧
      ¬((1 : ℕ) < 1 ∨ (95/100 : ℚ) < 9/10) := by
  refine ⟨?_, ?_, ?_⟩
  · norm_num [fitGrid, fitStep, fitRetain, fitCap, include_in_ensemble,
      evictScan, worst_of_best, wobAux]
  · norm_num [fitGrid, fitStep, fitRetain, fitCap, include_in_ensemble,
      evictScan, worst_of_best, wobAux]
  · norm_num

/-- C2 amended: at each grid cell the candidate is retained iff
`acc ≥ max_acc * threshold` and (`size < max_ensemble_size` or
`acc > min_max_acc`), where `max_acc` and `min_max_acc` are the running
variables maintained by `fit` rather than values recomputed from the
currently retained members: whenever the candidate accuracies are
nonnegative, `min_max_acc` is the `worst_of_best` sentinel `-1`
throughout (so the second conjunct always holds), and `max_acc` is an
upper bound of — not necessarily attained by — the retained accuracies. -/
theorem C2_retention_rule (t : ℚ) (maxSize : ℕ) (accs : List ℚ)
    (h : ∀ a ∈ accs, 0 ≤ a) :
    (∀ (acc maxAcc minMaxAcc : ℚ) (size : ℕ),
        include_in_ensemble t maxSize acc maxAcc minMaxAcc size = true ↔
          (maxAcc * t ≤ acc ∧ (size < maxSize ∨ minMaxAcc < acc)))
    ∧ (fitGrid t maxSize accs).minMaxAcc = -1
    ∧ ∀ a ∈ (fitGrid t maxSize accs).classifiers,
        a ≤ (fitGrid t maxSize accs).maxAcc := by
  refine ⟨fun acc maxAcc minMaxAcc size => ?_,
    (fitGrid_inv t maxSize accs h).2.1, (fitGrid_inv t maxSize accs h).2.2.2⟩
  rw [include_in_ensemble]
  split_ifs with h1 h2
  · simp [h1, Nat.not_lt.mpr h2]
  · simp [h1, Nat.lt_of_not_le h2]
  · simp [h1]

/-- Witness for the amended C2 at threshold `0.92`,
`max_ensemble_size = 250`, accuracies `[1/2, 1]`. -/
theorem C2_retention_rule_witness :
    (∀ (acc maxAcc minMaxAcc : ℚ) (size : ℕ),
        include_in_ensemble (92/100) 250 acc maxAcc minMaxAcc size = true ↔
          (maxAcc * (92/100) ≤ acc ∧ (size < 250 ∨ minMaxAcc < acc)))
    ∧ (fitGrid (92/100) 250 [1/2, 1]).minMaxAcc = -1
    ∧ ∀ a ∈ (fitGrid (92/100) 250 [1/2, 1]).classifiers,
        a ≤ (fitGrid (92/100) 250 [1/2, 1]).maxAcc :=
  C2_retention_rule (92/100) 250 [1/2, 1] (by norm_num)

/-- C3: the claim says that when the retained count exceeds
`max_ensemble_size` the member with the lowest cached accuracy is
evicted.  In the code `min_acc_ind` always comes back `0` from
`worst_of_best` (its `-1` sentinel is never beaten), so index 0 is
deleted instead: with threshold `0.92`, `max_ensemble_size = 1` and
cell accuracies `0.95, 0.94`, appending the second member triggers the
cap and deletes the `0.95` member — the best one — leaving `[0.94]`,
while the claim demands that the worst (`0.94`) be evicted. -/
theorem C3_evicts_index_zero_eval :
    (fitGrid (92/100) 1 [95/100, 94/100]).classifiers = [94/100] ∧
      (94/100 : ℚ) < 95/100 := by
  constructor
  · norm_num [fitGrid, fitStep, fitRetain, fitCap, include_in_ensemble,
      evictScan, worst_of_best, wobAux]
  · norm_num

/-- C4: on any retained-member accuracy list whose entries are all
nonnegative, the strict `<` comparison against the initial `-1` sentinel
in `worst_of_best` never fires, so the scan returns `min_acc = -1` and
index `0` regardless of the actual accuracies of the members. -/
theorem C4_worst_of_best_sentinel (accs : List ℚ)
    (h : ∀ a ∈ accs, 0 ≤ a) : worst_of_best accs = (-1, 0) :=
  wob_sentinel accs h

/-- Witness for C4 on the concrete accuracy list `[1/2, 0, 3/4]`. -/
theorem C4_worst_of_best_sentinel_witness :
    (∀ a ∈ ([1/2, 0, 3/4] : List ℚ), 0 ≤ a) ∧
      worst_of_best [1/2, 0, 3/4] = (-1, 0) :=
  ⟨by norm_num, C4_worst_of_best_sentinel [1/2, 0, 3/4] (by norm_num)⟩

/-- C8 counterexample: in randomised mode the loop runs until
`ensemble_size` members are built and never consults
`max_ensemble_size`; with `word_lengths = [0, 1]` (whose values are
legal indices, so line 154 does not raise), `ensemble_size = 2` and
`max_ensemble_size = 1`, `fit` ends with 2 retained members. -/
theorem C8_randomised_exceeds_cap :
    fitRandomised [0, 1] 2 (fun _ => 0) = some [0, 0] ∧
      (1 : ℕ) < ([0, 0] : List ℕ).length := by
  constructor
  · rfl
  · simp

/-- C8 amended: in grid-search mode (accuracies are leave-one-out rates,
hence nonnegative) the number of retained members after `fit` never
exceeds `max_ensemble_size`, for every threshold, cap and accuracy
sequence; in randomised mode the member count is instead driven by
`ensemble_size` alone. -/
theorem C8_grid_size_bound (t : ℚ) (maxSize : ℕ) (accs : List ℚ)
    (h : ∀ a ∈ accs, 0 ≤ a) :
    (fitGrid t maxSize accs).classifiers.length ≤ maxSize :=
  (fitGrid_inv t maxSize accs h).2.2.1

/-- Witness for the amended C8 at threshold `0.92`, cap 2, accuracies
`[3/4, 1/2, 4/5]`. -/
theorem C8_grid_size_bound_witness :
    (fitGrid (92/100) 2 [3/4, 1/2, 4/5]).classifiers.length ≤ 2 :=
  C8_grid_size_bound (92/100) 2 [3/4, 1/2, 4/5] (by norm_num)

/-- C9: with the default `word_lengths = [16, 14, 12, 10, 8]` the
randomised mode never appends a member: whatever index
`random.randint(0, 4)` draws, line 148 binds `word_len` to a list value
in `{8, ..., 16}`, and `self.word_lengths[word_len]` at line 154 then
indexes the 5-element list out of bounds, raising `IndexError` on the
first loop iteration. -/
theorem C9_default_word_lengths_crash :
    ∀ i : Fin 5, fitRandomised [16, 14, 12, 10, 8] 1 (fun _ => i.val) = none := by
  decide

/-- C10 counterexample: with one distinct class (labels `[7, 7, 7]`) and
a well-formed 2-d input, `fit` raises nothing and proceeds to build the
ensemble — here retaining one member — contradicting the claim that it
reports an error and does not build an ensemble. -/
theorem C10_single_class_fit_succeeds :
    (([7, 7, 7] : List ℤ).dedup.length < 2) ∧
      fitModel (92/100) 250 (.array 3 20) [7, 7, 7] [1/2] =
        Except.ok (1, ⟨[1/2], 1/2, -1⟩) := by
  constructor
  · decide
  · show Except.ok _ = _
    norm_num [fitGrid, fitStep, fitRetain, fitCap, include_in_ensemble,
      evictScan, worst_of_best, wobAux]

/-- C10 amended: `fit` performs no validation of the number of distinct
classes: for every label list with fewer than 2 distinct values and a
well-formed 2-d input, `fit` returns normally, records the class count,
and builds the ensemble exactly as it would for any other labels.  (The
only exception raised anywhere in `fit` is the `TypeError` for a
malformed DataFrame input.) -/
theorem C10_no_class_count_check (t : ℚ) (maxSize : ℕ) (n m : ℕ)
    (y : List ℤ) (accs : List ℚ) (_h : y.dedup.length < 2) :
    fitModel t maxSize (.array n m) y accs =
      Except.ok (y.dedup.length, fitGrid t maxSize accs) := rfl

/-- Witness for the amended C10 on labels `[7, 7, 7]`. -/
theorem C10_no_class_count_check_witness :
    (([7, 7, 7] : List ℤ).dedup.length < 2) ∧
      fitModel (92/100) 250 (.array 3 20) [7, 7, 7] [1/2, 3/4] =
        Except.ok (([7, 7, 7] : List ℤ).dedup.length,
          fitGrid (92/100) 250 [1/2, 3/4]) :=
  ⟨by decide, C10_no_class_count_check (92/100) 250 3 20 [7, 7, 7]
    [1/2, 3/4] (by decide)⟩

/-- C7 counterexample: the claim says `series_length` itself is always a
candidate window length.  At `series_length = 41`, `min_window = 10` the
step is `3` and `range(10, 42, 3)` stops at `40`: `41` is not
enumerated. -/
theorem C7_series_length_not_enumerated :
    winInc 41 10 = 3 ∧ (41 : ℕ) ∉ windowGrid 41 10 := by
  constructor
  · norm_num [winInc, pyTrunc]
  · norm_num [windowGrid, winInc, pyTrunc, pyRange]
    decide

/-- C7 amended: the window-length step is
`max(1, floor((series_length - min_window) / (series_length / 4)))` as
claimed, and the candidate window lengths are
`min_window, min_window + step, min_window + 2*step, ...` — exactly the
values of that form that do not exceed `series_length`.  `series_length`
itself is enumerated if and only if the step divides
`series_length - min_window`. -/
theorem C7_window_grid (L w : ℕ) (hL : 0 < L) (hw : w ≤ L) :
    winInc L w = max 1 ⌊((L : ℚ) - (w : ℚ)) / ((L : ℚ) / 4)⌋
    ∧ (∀ x, x ∈ windowGrid L w ↔
        ∃ k, x = w + k * (winInc L w).toNat ∧ x ≤ L)
    ∧ (L ∈ windowGrid L w ↔ (winInc L w).toNat ∣ (L - w)) := by
  have hq : (0 : ℚ) ≤ ((L : ℚ) - (w : ℚ)) / ((L : ℚ) / 4) := by
    apply div_nonneg
    · have hcast : (w : ℚ) ≤ (L : ℚ) := by exact_mod_cast hw
      linarith
    · have hcast : (0 : ℚ) ≤ (L : ℚ) := by positivity
      linarith
  have h1 : winInc L w = max 1 ⌊((L : ℚ) - (w : ℚ)) / ((L : ℚ) / 4)⌋ := by
    simp only [winInc, pyTrunc]
    rw [if_pos hq]
    split_ifs with h
    · exact (max_eq_left (by omega)).symm
    · exact (max_eq_right (by omega)).symm
  have hwv : 1 ≤ winInc L w := by
    rw [h1]; exact le_max_left _ _
  have hs0 : 0 < (winInc L w).toNat := by omega
  have key : ∀ k : ℕ,
      k < (L + 1 - w + (winInc L w).toNat - 1) / (winInc L w).toNat ↔
        k * (winInc L w).toNat < L + 1 - w := by
    intro k
    rw [Nat.lt_iff_add_one_le, Nat.le_div_iff_mul_le hs0]
    have hexp : (k + 1) * (winInc L w).toNat =
        k * (winInc L w).toNat + (winInc L w).toNat := by ring
    omega
  have hmem : ∀ x, x ∈ windowGrid L w ↔
      ∃ k, x = w + k * (winInc L w).toNat ∧ x ≤ L := by
    intro x
    rw [windowGrid, pyRange]
    simp only [List.mem_map, List.mem_range]
    constructor
    · rintro ⟨k, hk, rfl⟩
      exact ⟨k, rfl, by have := (key k).mp hk; omega⟩
    · rintro ⟨k, rfl, hx⟩
      exact ⟨k, (key k).mpr (by omega), rfl⟩
  refine ⟨h1, hmem, ?_⟩
  rw [hmem L]
  constructor
  · rintro ⟨k, hk, -⟩
    have hcomm : k * (winInc L w).toNat = (winInc L w).toNat * k := mul_comm _ _
    exact ⟨k, by omega⟩
  · rintro ⟨c, hc⟩
    have hcomm : c * (winInc L w).toNat = (winInc L w).toNat * c := mul_comm _ _
    exact ⟨c, by omega, le_rfl⟩

/-- C5: on a non-empty training set, `BOSSIndividual.predict` returns the
class label of the stored training bag whose true distance to the test
bag is minimal, ties broken by lowest training index; this holds for
EVERY reporting behaviour of `boss_distance` that satisfies the early-exit
contract (exact below the cutoff, anything ≥ the cutoff otherwise), so
passing the running best distance as the cutoff does not change the
selected bag.  `M` models `sys.float_info.max`, which exceeds every true
bag distance. -/
theorem C5_predict_nearest (labels : List ℤ) (d : ℕ → ℚ)
    (report : ℕ → ℚ → ℚ) (M : ℚ) (hne : labels ≠ [])
    (hc : DistContract d report) (hM : ∀ n < labels.length, d n < M) :
    nnScan report labels M =
      (d (argminFirst d labels.length),
        labels.getD (argminFirst d labels.length) (-1))
    ∧ argminFirst d labels.length < labels.length
    ∧ (∀ m < labels.length, d (argminFirst d labels.length) ≤ d m)
    ∧ (∀ m < argminFirst d labels.length,
        d (argminFirst d labels.length) < d m) := by
  have hpos : 0 < labels.length := List.length_pos.mpr hne
  exact ⟨nnScan_loop labels d report M hc labels.length hpos hM,
    argminFirst_lt d labels.length hpos,
    argminFirst_min d labels.length,
    argminFirst_strict d labels.length⟩

/-- Witness for C5: training labels `[3, 7]`, true distances
`d n = n + 1`, and the reporting function that returns the cutoff
whenever the true distance reaches it. -/
theorem C5_predict_nearest_witness :
    nnScan (fun n c => if ((n : ℚ) + 1) < c then ((n : ℚ) + 1) else c)
        [3, 7] 100 =
      ((fun (n : ℕ) => (n : ℚ) + 1)
          (argminFirst (fun n => (n : ℚ) + 1) ([3, 7] : List ℤ).length),
        ([3, 7] : List ℤ).getD
          (argminFirst (fun n => (n : ℚ) + 1) ([3, 7] : List ℤ).length) (-1))
    ∧ argminFirst (fun n => (n : ℚ) + 1) ([3, 7] : List ℤ).length <
        ([3, 7] : List ℤ).length
    ∧ (∀ m < ([3, 7] : List ℤ).length,
        (fun (n : ℕ) => (n : ℚ) + 1)
            (argminFirst (fun n => (n : ℚ) + 1) ([3, 7] : List ℤ).length) ≤
          (m : ℚ) + 1)
    ∧ (∀ m < argminFirst (fun n => (n : ℚ) + 1) ([3, 7] : List ℤ).length,
        (fun (n : ℕ) => (n : ℚ) + 1)
            (argminFirst (fun n => (n : ℚ) + 1) ([3, 7] : List ℤ).length) <
          (m : ℚ) + 1) :=
  C5_predict_nearest [3, 7] (fun n => (n : ℚ) + 1)
    (fun n c => if ((n : ℚ) + 1) < c then ((n : ℚ) + 1) else c) 100
    (by simp)
    (fun n c =>
      ⟨fun h => by
        show (if ((n : ℚ) + 1) < c then ((n : ℚ) + 1) else c) = (n : ℚ) + 1
        exact if_pos h,
       fun h => by
        show c ≤ if ((n : ℚ) + 1) < c then ((n : ℚ) + 1) else c
        rw [if_neg (not_lt.mpr h)]⟩)
    (fun n hn => by
      show (n : ℚ) + 1 < 100
      have hn2 : n ≤ 1 := by simp at hn; omega
      have hcast : (n : ℚ) ≤ 1 := by exact_mod_cast hn2
      linarith)

/-- C6: `train_predict(i)` can only return the `-1` no-match sentinel
when there is no training instance other than the excluded one: whenever
some index `j ≠ i` exists in the training set, the returned value is the
class label of some non-excluded training instance.  As in C5, this holds
for every reporting behaviour satisfying the distance contract, with
every true distance below the `sys.float_info.max` starting value. -/
theorem C6_train_predict_label (labels : List ℤ) (d : ℕ → ℚ)
    (report : ℕ → ℚ → ℚ) (M : ℚ) (i : ℕ) (hc : DistContract d report)
    (hM : ∀ n < labels.length, d n < M)
    (hj : ∃ j, j < labels.length ∧ j ≠ i) :
    ∃ n, n < labels.length ∧ n ≠ i ∧
      (trainPredictScan report labels M i).2 = labels.getD n (-1) := by
  rcases trainPredict_loop labels d report M i hc hM labels.length le_rfl with
    ⟨_, hall⟩ | ⟨n, hn, hni, hval⟩
  · obtain ⟨j, hj1, hj2⟩ := hj
    exact absurd (hall j hj1) hj2
  · exact ⟨n, hn, hni, hval⟩

/-- Witness for C6: training labels `[3, 7]`, excluded index `0`, true
distances `d n = n + 1` and the cutoff-clamping reporter. -/
theorem C6_train_predict_label_witness :
    ∃ n, n < ([3, 7] : List ℤ).length ∧ n ≠ 0 ∧
      (trainPredictScan
          (fun n c => if ((n : ℚ) + 1) < c then ((n : ℚ) + 1) else c)
          [3, 7] 100 0).2 = ([3, 7] : List ℤ).getD n (-1) :=
  C6_train_predict_label [3, 7] (fun n => (n : ℚ) + 1)
    (fun n c => if ((n : ℚ) + 1) < c then ((n : ℚ) + 1) else c) 100 0
    (fun n c =>
      ⟨fun h => by
        show (if ((n : ℚ) + 1) < c then ((n : ℚ) + 1) else c) = (n : ℚ) + 1
        exact if_pos h,
       fun h => by
        show c ≤ if ((n : ℚ) + 1) < c then ((n : ℚ) + 1) else c
        rw [if_neg (not_lt.mpr h)]⟩)
    (fun n hn => by
      show (n : ℚ) + 1 < 100
      have hn2 : n ≤ 1 := by simp at hn; omega
      have hcast : (n : ℚ) ≤ 1 := by exact_mod_cast hn2
      linarith)
    ⟨1, by simp, by omega⟩

/-- Witness for the amended C7 at `series_length = 40`,
`min_window = 10`. -/
theorem C7_window_grid_witness :
    winInc 40 10 = max 1 ⌊((40 : ℚ) - (10 : ℚ)) / ((40 : ℚ) / 4)⌋
    ∧ (∀ x, x ∈ windowGrid 40 10 ↔
        ∃ k, x = 10 + k * (winInc 40 10).toNat ∧ x ≤ 40)
    ∧ ((40 : ℕ) ∈ windowGrid 40 10 ↔ (winInc 40 10).toNat ∣ (40 - 10)) :=
  C7_window_grid 40 10 (by norm_num) (by norm_num)

end Boss
